import Mathlib

/-!
Verification development for the PFMBD2C backend core: the per-user FAISS
vector index service (`document/services/vector_db_service.py`), the PDF
chunker and ingestion pipeline (`document/services/pdf_processor.py`,
`document/tasks.py`), and the retrieval orchestrator
(`chat/services/rag_service.py`), shallowly embedded in Lean.

Modelling conventions:
* embedding vectors are lists of integer coordinates (the exactness of the
  distance comparisons, `0` versus positive, is what the claims rest on);
* the FAISS `IndexFlatL2` structure of a user is the list of its vectors in
  slot order, and the pickled metadata dict is an association list from
  slot number to chunk id (Python dicts preserve insertion order and
  update keys in place, which `dictInsert` mirrors);
* the Django `Chunk` table is a list of `ChunkRec` rows;
* the on-disk pair of files for a user is `Option UserIndex`: `none` means
  the files do not exist and `_load_user_index` lazily creates a fresh
  empty index;
* the external embedding collaborator is an opaque function parameter.
-/

set_option maxHeartbeats 1000000

namespace PFMBD

/-- Embedding vectors, as lists of integer coordinates. -/
abbrev Vec := List Int

/-- Squared Euclidean distance, the metric of `faiss.IndexFlatL2` (summed
over the common coordinates; callers pass vectors of the index dimension). -/
def sqDist (q v : Vec) : Int :=
  (List.zipWith (fun a b => (a - b) * (a - b)) q v).foldl (· + ·) 0

/-- Ordering of FAISS search results: ascending distance, ties broken by
ascending slot number. -/
def slotLE (a b : Int × Nat) : Prop :=
  a.1 < b.1 ∨ (a.1 = b.1 ∧ a.2 ≤ b.2)

instance : DecidableRel slotLE := fun a b => by
  unfold slotLE; exact inferInstance

instance : IsTotal (Int × Nat) slotLE := by
  constructor
  intro a b
  rcases lt_trichotomy a.1 b.1 with h | h | h
  · exact Or.inl (Or.inl h)
  · rcases Nat.le_total a.2 b.2 with h2 | h2
    · exact Or.inl (Or.inr ⟨h, h2⟩)
    · exact Or.inr (Or.inr ⟨h.symm, h2⟩)
  · exact Or.inr (Or.inl h)

instance : IsTrans (Int × Nat) slotLE := by
  constructor
  intro a b c hab hbc
  rcases hab with h | ⟨he, h2⟩
  · rcases hbc with hb | ⟨he2, _⟩
    · exact Or.inl (h.trans hb)
    · exact Or.inl (lt_of_lt_of_le h (le_of_eq he2))
  · rcases hbc with hb | ⟨he2, h3⟩
    · exact Or.inl (lt_of_le_of_lt (le_of_eq he) hb)
    · exact Or.inr ⟨he.trans he2, h2.trans h3⟩

/-- A row of the Django `Chunk` table (the fields the index service reads:
primary key, owning document, owning user, back-reference `vector_id`). -/
structure ChunkRec where
  id : Nat
  pdfId : Nat
  userId : Nat
  vectorId : Option Nat
deriving DecidableEq

/-- One user's persisted FAISS index together with its pickled metadata
dict (slot number, chunk id). -/
structure UserIndex where
  vecs : List Vec
  metadata : List (Nat × Nat)
deriving DecidableEq

/-- Global mutable state seen by `VectorDBService`: the chunk table and,
per user id, the optional on-disk index/metadata pair. -/
structure SysState where
  db : List ChunkRec
  vdb : Nat → Option UserIndex

/-- Fresh empty `IndexFlatL2` with empty metadata. -/
def emptyIndex : UserIndex := ⟨[], []⟩

/-- Embeds `VectorDBService._load_user_index`: return the stored pair if
the index file exists, else a fresh empty index and empty metadata. No
consistency check of any kind is performed. -/
def loadUserIndex (vdb : Nat → Option UserIndex) (u : Nat) : UserIndex :=
  (vdb u).getD emptyIndex

/-- Python dict membership plus lookup, `metadata[idx]` guarded by
`idx in metadata`. -/
def lookupMeta (m : List (Nat × Nat)) (k : Nat) : Option Nat :=
  (m.find? (fun p => p.1 == k)).map Prod.snd

/-- Python dict assignment `m[k] = v`: replace in place when the key is
present, append otherwise. -/
def dictInsert (m : List (Nat × Nat)) (k v : Nat) : List (Nat × Nat) :=
  if m.any (fun p => p.1 == k) then
    m.map (fun p => if p.1 == k then (k, v) else p)
  else m ++ [(k, v)]

/-- Embeds the `try: chunk = Chunk.objects.get(id=chunk_id); chunk.vector_id
= str(faiss_idx); chunk.save() except Chunk.DoesNotExist: pass` body of the
add loop: update the matching row when it exists, silently do nothing
otherwise. -/
def setVectorId (db : List ChunkRec) (cid slot : Nat) : List ChunkRec :=
  db.map (fun r => if r.id == cid then { r with vectorId := some slot } else r)

/-- One iteration of the `for i, chunk_id in enumerate(chunk_ids)` loop of
`add_embeddings`: record slot `current_size + i` in the metadata dict and
update the chunk row's `vector_id` when the row exists. -/
def addStep (size : Nat) (acc : List (Nat × Nat) × List ChunkRec)
    (p : Nat × (Nat × Vec)) : List (Nat × Nat) × List ChunkRec :=
  (dictInsert acc.1 (size + p.1) p.2.1, setVectorId acc.2 p.2.1 (size + p.1))

/-- Embeds `VectorDBService.add_embeddings`: load (or lazily create) the
user's index, append the vectors in mapping-iteration order, record slot
`current_size + i` for the i-th chunk id in the metadata dict, update each
existing chunk row's `vector_id`, and save. `pairs` is the
`chunk_embeddings` dict in its iteration order. -/
def addEmbeddings (st : SysState) (u : Nat) (pairs : List (Nat × Vec)) : SysState :=
  let idx := loadUserIndex st.vdb u
  let size := idx.vecs.length
  let newVecs := idx.vecs ++ pairs.map Prod.snd
  let upd := pairs.enum.foldl (addStep size) (idx.metadata, st.db)
  { db := upd.2,
    vdb := fun v => if v = u then some ⟨newVecs, upd.1⟩ else st.vdb v }

/-- Embeds the body of `VectorDBService.search` on a loaded index: if the
index is empty return `[]`; otherwise take the `min(top_k, ntotal)` slots
nearest to the query (ascending squared L2 distance, ties by ascending
slot) and map them through the metadata dict, silently skipping any slot
absent from it. -/
def searchIndex (idx : UserIndex) (q : Vec) (k : Nat) : List Nat :=
  if idx.vecs.length = 0 then []
  else
    let keys := idx.vecs.enum.map (fun p => (sqDist q p.2, p.1))
    let sorted := List.insertionSort slotLE keys
    ((sorted.take (min k idx.vecs.length)).map Prod.snd).filterMap
      (fun s => lookupMeta idx.metadata s)

/-- Embeds `VectorDBService.search`: load the user's index (lazily fresh
when absent) and query it. -/
def searchOp (st : SysState) (u : Nat) (q : Vec) (k : Nat) : List Nat :=
  searchIndex (loadUserIndex st.vdb u) q k

/-- Embeds `VectorDBService.delete_pdf_vectors`: if the document has no
chunks for this user, do nothing; if no chunks of the user remain after
excluding the document, delete the persisted index and metadata files;
otherwise rebuild a fresh index from the remaining chunks in stored order,
re-embedding them through the external collaborator `embed`, with slots
renumbered from 0. -/
def deletePdfVectors (embed : ChunkRec → Vec) (st : SysState) (pdfId u : Nat) : SysState :=
  let pdfChunks := st.db.filter (fun r => r.pdfId == pdfId && r.userId == u)
  if pdfChunks.isEmpty then st
  else
    let remaining := st.db.filter (fun r => r.userId == u && !(r.pdfId == pdfId))
    if remaining.isEmpty then
      { st with vdb := fun v => if v = u then none else st.vdb v }
    else
      let newVecs := remaining.map embed
      let newMeta := remaining.enum.map (fun p => (p.1, p.2.id))
      { st with vdb := fun v => if v = u then some ⟨newVecs, newMeta⟩ else st.vdb v }

/-- Embeds the error behaviour of `VectorDBService._load_user_index` in an
exception-aware type: the Python function contains no raise and no
validation of the loaded pair, so loading always returns normally,
whatever the relation between the index size and the metadata dict. -/
def loadUserIndexE (vdb : Nat → Option UserIndex) (u : Nat) :
    Except String UserIndex :=
  Except.ok (loadUserIndex vdb u)

/-- An operation against the vector service: an `add_embeddings` call or a
`delete_pdf_vectors` call. -/
inductive VOp where
  | add (u : Nat) (pairs : List (Nat × Vec))
  | del (pdfId : Nat) (u : Nat)

/-- Apply one operation. -/
def applyOp (embed : ChunkRec → Vec) (st : SysState) : VOp → SysState
  | .add u pairs => addEmbeddings st u pairs
  | .del pdfId u => deletePdfVectors embed st pdfId u

/-- Run a sequence of operations left to right. -/
def runOps (embed : ChunkRec → Vec) (st : SysState) : List VOp → SysState
  | [] => st
  | op :: ops => runOps embed (applyOp embed st op) ops

/-- Initial state: a chunk table and no persisted index for any user. -/
def initState (db : List ChunkRec) : SysState := ⟨db, fun _ => none⟩

/-- Projection of the chunk table to the fields the vector service never
writes: primary key, owning document, owning user. The add loop only
touches `vector_id`. -/
def dbShape (db : List ChunkRec) : List (Nat × Nat × Nat) :=
  db.map (fun r => (r.id, r.pdfId, r.userId))

/-- Chunk id `cid` is owned by nobody but `u`: every row carrying that id
belongs to user `u`. -/
def ownedOnly (db : List ChunkRec) (cid u : Nat) : Prop :=
  ∀ r ∈ db, r.id = cid → r.userId = u

instance (db : List ChunkRec) (cid u : Nat) : Decidable (ownedOnly db cid u) :=
  inferInstanceAs (Decidable (∀ r ∈ db, r.id = cid → r.userId = u))

/-- Chunk id `cid` belongs to user `u`: some row of the chunk table
carries id `cid` and user `u`. -/
def chunkBelongsTo (db : List ChunkRec) (cid u : Nat) : Prop :=
  ∃ r ∈ db, r.id = cid ∧ r.userId = u

instance (db : List ChunkRec) (cid u : Nat) : Decidable (chunkBelongsTo db cid u) :=
  inferInstanceAs (Decidable (∃ r ∈ db, r.id = cid ∧ r.userId = u))

/-- Well-formed client behaviour, as exercised by the ingestion pipeline:
an `add_embeddings` call for user `u` only passes chunk ids that no other
user owns. Deletions carry no side condition. -/
def opOk (db : List ChunkRec) : VOp → Prop
  | .add u pairs => ∀ pr ∈ pairs, ownedOnly db pr.1 u
  | .del _ _ => True

instance (db : List ChunkRec) : DecidablePred (opOk db) := fun op =>
  match op with
  | .add u pairs => inferInstanceAs (Decidable (∀ pr ∈ pairs, ownedOnly db pr.1 u))
  | .del _ _ => inferInstanceAs (Decidable True)

/-- Isolation invariant: every metadata entry of every user's persisted
index names a chunk id that no other user owns. -/
def MetaOwned (db : List ChunkRec) (st : SysState) : Prop :=
  ∀ u idx, st.vdb u = some idx → ∀ p ∈ idx.metadata, ownedOnly db p.2 u

/-! Chunker (`PDFProcessor.create_chunks` and its helpers), embedded over
`List Char` with `Nat` positions. Python's `start = end - overlap` can go
negative, but it is only compared (`start <= 0`) before being reused, so
truncated `Nat` subtraction together with the `start2 = 0` test is
equivalent. The loop has no structural termination measure, so it is
embedded with explicit fuel: the Python loop terminates on an input iff
some fuel returns `some`. -/

/-- Sentence-terminal characters of `_find_sentence_boundary`. -/
def sentenceEndings : List Char := ['.', '!', '?', '\n']

/-- Embeds `PDFProcessor._find_sentence_boundary` (default
`search_window = 100`): scan the window backwards for the last
sentence-terminal character and return the position just after it, or the
given position when none is found. -/
def findSentenceBoundary (text : List Char) (position : Nat) : Nat :=
  let searchStart := position - 100
  let searchEnd := min text.length (position + 100)
  let searchText := (text.drop searchStart).take (searchEnd - searchStart)
  match searchText.enum.reverse.find? (fun p => sentenceEndings.contains p.2) with
  | some p => searchStart + p.1 + 1
  | none => position

/-- Python `str.strip()` on the whitespace the chunker meets. -/
def isSpaceChar (c : Char) : Bool :=
  c = ' ' || c = '\n' || c = '\t' || c = '\r'

/-- Strip leading and trailing whitespace. -/
def stripChars (l : List Char) : List Char :=
  ((l.dropWhile isSpaceChar).reverse.dropWhile isSpaceChar).reverse

/-- Embeds `PDFProcessor._get_page_for_position` over the page-range
association list `(page, start, end)`: first page whose half-open range
contains the position, else the last page. -/
def getPageForPosition (position : Nat) (ranges : List (Nat × Nat × Nat)) : Nat :=
  match ranges.find? (fun p => decide (p.2.1 ≤ position) && decide (position < p.2.2)) with
  | some p => p.1
  | none => ((ranges.getLast?).map Prod.fst).getD 0

/-- One emitted chunk of `create_chunks`, with its provenance fields. -/
structure ChunkDraft where
  text : List Char
  chunkIndex : Nat
  pageNumber : Nat
  startChar : Nat
  endChar : Nat
  tokenCount : Nat
deriving DecidableEq

/-- Concatenate the sorted pages into one buffer, appending a newline per
page and recording each page's half-open character range, as the first
loop of `create_chunks` does. -/
def buildPages (pages : List (Nat × List Char)) :
    List Char × List (Nat × Nat × Nat) :=
  pages.foldl (fun acc p =>
    let fullText := acc.1 ++ p.2 ++ ['\n']
    (fullText, acc.2 ++ [(p.1, acc.1.length, fullText.length)]))
    ([], [])

/-- Embeds the `while start < len(full_text)` loop of `create_chunks`,
with fuel. Each iteration: snap the window end to a sentence boundary
when it lies strictly inside the buffer and past `start`; emit the
trimmed slice when non-empty, attributed to the page owning the window
midpoint; advance `start` to `end - overlap`; stop when the new start is
0 (Python: `<= 0`) or reaches the buffer end. -/
def chunkLoop (text : List Char) (size overlap : Nat)
    (ranges : List (Nat × Nat × Nat)) :
    Nat → Nat → Nat → List ChunkDraft → Option (List ChunkDraft)
  | 0, _, _, _ => none
  | fuel + 1, start, cidx, acc =>
    if start < text.length then
      let end0 := start + size
      let end1 := if end0 < text.length then
          let se := findSentenceBoundary text end0
          if start < se then se else end0
        else end0
      let chunkText := stripChars ((text.drop start).take (end1 - start))
      let next := if chunkText.isEmpty then (acc, cidx) else
        (acc ++ [⟨chunkText, cidx,
          getPageForPosition (start + (end1 - start) / 2) ranges,
          start, end1, chunkText.length / 4⟩], cidx + 1)
      let start2 := end1 - overlap
      if start2 = 0 ∨ start2 ≥ text.length then some next.1
      else chunkLoop text size overlap ranges fuel start2 next.2 next.1
    else some acc

/-- Embeds `PDFProcessor.create_chunks`: sort the page dict by page
number, build the buffer and page ranges, and run the sliding-window
loop from `start = 0`. -/
def createChunks (fuel : Nat) (size overlap : Nat)
    (pageTexts : List (Nat × List Char)) : Option (List ChunkDraft) :=
  let sortedPages := List.insertionSort (fun a b => a.1 ≤ b.1) pageTexts
  let built := buildPages sortedPages
  chunkLoop built.1 size overlap built.2 fuel 0 0 []

/-- The input on which the chunker loops forever: one page of 29
characters with no sentence-terminal character, chunked with
`chunk_size = 10, chunk_overlap = 10`. -/
def badPages : List (Nat × List Char) := [(1, List.replicate 29 'a')]

/-- Buffer built from `badPages` (29 characters plus the appended
newline, 30 in total). -/
def badText : List Char :=
  (buildPages (List.insertionSort (fun a b => a.1 ≤ b.1) badPages)).1

/-- Page ranges built from `badPages`. -/
def badRanges : List (Nat × Nat × Nat) :=
  (buildPages (List.insertionSort (fun a b => a.1 ≤ b.1) badPages)).2

/-! Ingestion pipeline (`PDFProcessor.process_and_save_chunks` and
`document/tasks.py process_pdf_async`). Text extraction is an external
collaborator, so the pipeline is modelled on the extracted page texts; the
embedding/indexing steps are parametrised by an `Except` outcome. The
status trace records the successive values written to
`processing_status` by `.save()` calls. -/

/-- Document processing status (`PDFFile.STATUS_CHOICES`). -/
inductive PStatus where
  | pending
  | processing
  | completed
  | failed
deriving DecidableEq

/-- The `PDFFile` fields the pipeline writes. -/
structure DocRec where
  status : PStatus
  pageCount : Option Nat
  totalChunks : Nat
  metaError : Option String
deriving DecidableEq

/-- A freshly uploaded document, created `pending` by the upload view. -/
def doc0 : DocRec := ⟨.pending, none, 0, none⟩

/-- Error payload the task writes when chunking yields nothing
(`tasks.py`, the `if not chunks` branch). -/
def errNoText : String := "Aucun texte n a pu etre extrait du PDF"

/-- Embeds `PDFProcessor.process_and_save_chunks` on already-extracted
page texts: write `processing`, chunk, persist the chunks, then write
`completed` together with page and chunk counts. `none` means the
chunking loop ran out of fuel (the Python call never returns). With the
extraction outcome given, no exception can occur in this body, so its
`except` branch is unreachable here. -/
def processAndSaveChunks (fuel : Nat) (doc : DocRec)
    (pages : List (Nat × List Char)) :
    Option (DocRec × List PStatus × List ChunkDraft) :=
  match createChunks fuel 800 100 pages with
  | none => none
  | some chunkData =>
    some ({ doc with
        status := .completed,
        pageCount := some pages.length,
        totalChunks := chunkData.length },
      [.processing, .completed], chunkData)

/-- Outcome of one `process_pdf_async` run. -/
structure TaskRun where
  doc : DocRec
  statusTrace : List PStatus
  embedCalled : Bool
deriving DecidableEq

/-- Embeds `process_pdf_async`: run `process_and_save_chunks`; when it
yields zero chunks, overwrite the status with `failed` plus the
no-extractable-text error and return without touching the embedding
service; otherwise call the embedding gateway (`embedOutcome` is the
collaborator's behaviour) and either finish `completed` or, when it
raises, record `failed` with the error through the generic `except`
handler. -/
def processPdfAsync (fuel : Nat) (pages : List (Nat × List Char))
    (embedOutcome : Except String (List (Nat × Vec))) : Option TaskRun :=
  match processAndSaveChunks fuel doc0 pages with
  | none => none
  | some (d2, tr, chunks) =>
    if chunks.isEmpty then
      some ⟨{ d2 with status := .failed, metaError := some errNoText },
        tr ++ [.failed], false⟩
    else
      match embedOutcome with
      | .error e =>
        some ⟨{ d2 with status := .failed, metaError := some e },
          tr ++ [.failed], true⟩
      | .ok _ =>
        some ⟨{ d2 with status := .completed }, tr ++ [.completed], true⟩

/-- Status `s` is absorbing in a status-write trace: every write after a
write of `s` is again `s`. -/
def absorbing (s : PStatus) (tr : List PStatus) : Prop :=
  ∀ i, i < tr.length → ∀ j, j < tr.length → i < j →
    tr[i]? = some s → tr[j]? = some s

instance (s : PStatus) (tr : List PStatus) : Decidable (absorbing s tr) :=
  inferInstanceAs (Decidable (∀ i, i < tr.length → ∀ j, j < tr.length →
    i < j → tr[i]? = some s → tr[j]? = some s))

/-! Retrieval orchestrator (`chat/services/rag_service.py`). The query
embedding is a parameter (the embedding collaborator is external); the
generation collaborator's behaviour is an `Except` outcome. Raising
functions are embedded as `Except`-valued so that the absorb-versus-raise
policy of each path is expressible. -/

/-- A hydrated chunk row as the RAG service reads it (with the document's
filename joined in). -/
structure RChunk where
  id : Nat
  pdfId : Nat
  userId : Nat
  chunkIndex : Nat
  page : Nat
  text : String
  filename : String
deriving DecidableEq

/-- One entry of the `sources` payload of `_prepare_sources`. -/
structure Source where
  pdfId : Nat
  filename : String
  page : Nat
  preview : String
  chunkId : Nat
deriving DecidableEq

/-- Embeds `_prepare_sources`: one entry per chunk in order, the preview
being the first 200 characters plus an ellipsis. -/
def prepareSources (chunks : List RChunk) : List Source :=
  chunks.map (fun c => ⟨c.pdfId, c.filename, c.page, c.text.take 200 ++ "...", c.id⟩)

/-- Fixed answer when the index search returns nothing. -/
def noInfoMsg1 : String :=
  "Je n ai pas pu trouver d informations pertinentes dans vos documents pour repondre a cette question."

/-- Fixed answer when hydration/filtering leaves nothing. -/
def noInfoMsg2 : String :=
  "Aucune information pertinente trouvee dans les documents specifies."

/-- Degraded answer produced when the generation collaborator raises
inside `ask_question`. -/
def genErrMsg (e : String) : String :=
  "Erreur lors de la generation de la reponse: " ++ e

/-- Result payload of `ask_question`. -/
structure AskResult where
  answer : String
  sources : List Source
  chunkIds : List Nat
  genCalled : Bool
deriving DecidableEq

/-- The chunk-id sequence returned by the index search inside
`ask_question` (step 2). -/
def ragSearchIds (vdb : Nat → Option UserIndex) (userId : Nat) (qEmb : Vec)
    (topK : Nat) : List Nat :=
  searchIndex (loadUserIndex vdb userId) qEmb topK

/-- Embeds steps 3 of `ask_question`: hydrate the searched ids filtered to
the user, optionally filter to the requested documents (Python `if
pdf_ids:` is false for both `None` and `[]`), and re-impose the search
order, dropping ids that did not survive (`chunks_dict` is a Python dict
comprehension, so a duplicated id keeps the last row). -/
def hydratedOrdered (chunks : List RChunk) (userId : Nat)
    (pdfIds : Option (List Nat)) (ids : List Nat) : List RChunk :=
  let hydrated := chunks.filter (fun c => ids.contains c.id && c.userId == userId)
  let filtered := match pdfIds with
    | some l => if l.isEmpty then hydrated
        else hydrated.filter (fun c => l.contains c.pdfId)
    | none => hydrated
  ids.filterMap (fun cid => filtered.reverse.find? (fun c => c.id == cid))

/-- Embeds `RAGService.ask_question` (transcript persistence, a side
effect on the chat collaborator's store, is not part of the returned
payload): search, short-circuit on no candidates, generate once, absorb a
generation failure into a degraded answer. `genCalled` records whether
the generation collaborator was invoked. -/
def askQuestion (vdb : Nat → Option UserIndex) (chunks : List RChunk)
    (userId : Nat) (qEmb : Vec) (pdfIds : Option (List Nat)) (topK : Nat)
    (genOutcome : Except String String) : AskResult :=
  let ids := ragSearchIds vdb userId qEmb topK
  if ids.isEmpty then ⟨noInfoMsg1, [], [], false⟩
  else
    let ordered := hydratedOrdered chunks userId pdfIds ids
    if ordered.isEmpty then ⟨noInfoMsg2, [], [], false⟩
    else
      match genOutcome with
      | .error e => ⟨genErrMsg e, [], [], true⟩
      | .ok a => ⟨a, prepareSources ordered, ordered.map RChunk.id, true⟩

/-- Fixed reply of `generate_summary` when the document has no chunks. -/
def noSummaryMsg : String := "Aucun contenu trouve a resumer."

/-- Error-describing string `generate_summary` returns when the
generation collaborator raises. -/
def sumErrMsg (e : String) : String :=
  "Erreur lors de la generation du resume: " ++ e

/-- Embeds `RAGService.generate_summary` as an `Except`-valued function:
take the document's chunks in `chunk_index` order, cap at 20, generate
once; a collaborator failure is caught and returned as an
error-describing string, never re-raised, so the result is always
`Except.ok`. -/
def generateSummary (chunks : List RChunk) (userId pdfId : Nat)
    (genOutcome : Except String String) : Except String String :=
  let docChunks := List.insertionSort (fun a b => a.chunkIndex ≤ b.chunkIndex)
    (chunks.filter (fun c => c.pdfId == pdfId && c.userId == userId))
  if docChunks.isEmpty then Except.ok noSummaryMsg
  else
    match genOutcome with
    | .error e => Except.ok (sumErrMsg e)
    | .ok a => Except.ok a

/-- Payload of `generate_mindmap`: either the structure wrapper or the
error wrapper it returns. -/
inductive MindmapResult where
  | structureText (s : String)
  | errorText (e : String)
deriving DecidableEq

/-- Message modelling `str(TypeError)` for the misspelled keyword
`ontents` in the `generate_content` call of `generate_mindmap`. -/
def mindmapTypeError : String :=
  "Models.generate_content() got an unexpected keyword argument ontents"

/-- Embeds `RAGService.generate_mindmap` as an `Except`-valued function.
The source passes the prompt through the misspelled keyword argument
`ontents=prompt`, so the generation call raises `TypeError` before
reaching the collaborator; the surrounding `try/except` catches it and
returns the error dict, so the function never raises and never returns a
structure. -/
def generateMindmap (chunks : List RChunk) (userId pdfId : Nat)
    (_genOutcome : Except String String) : Except String MindmapResult :=
  let docChunks := List.insertionSort (fun a b => a.chunkIndex ≤ b.chunkIndex)
    (chunks.filter (fun c => c.pdfId == pdfId && c.userId == userId))
  if docChunks.isEmpty then Except.ok (.errorText "Aucun contenu trouve")
  else Except.ok (.errorText
    ("Erreur lors de la generation de la carte mentale: " ++ mindmapTypeError))

example :
    searchOp (addEmbeddings (initState []) 1 [(7, [1, 2])]) 1 [1, 2] 5 = [7] := by
  decide

example :
    searchOp (addEmbeddings (initState []) 1 [(7, [1, 2])]) 2 [1, 2] 5 = [] := by
  decide

example :
    searchOp (addEmbeddings (addEmbeddings (initState []) 1 [(7, [0, 0])]) 1
      [(9, [3, 4])]) 1 [3, 4] 1 = [9] := by
  decide

theorem dbShape_setVectorId (db : List ChunkRec) (cid slot : Nat) :
    dbShape (setVectorId db cid slot) = dbShape db := by
  simp only [dbShape, setVectorId, List.map_map]
  apply List.map_congr_left
  intro r _
  by_cases h : r.id = cid <;> simp [h]

theorem mem_dictInsert_self (m : List (Nat × Nat)) (k v : Nat) :
    (k, v) ∈ dictInsert m k v := by
  unfold dictInsert
  by_cases h : m.any (fun p => p.1 == k)
  · rw [if_pos h]
    rcases List.any_eq_true.mp h with ⟨p, hp, hpk⟩
    refine List.mem_map.mpr ⟨p, hp, ?_⟩
    rw [if_pos hpk]
  · rw [if_neg h]
    exact List.mem_append_right _ (List.mem_singleton.mpr rfl)

theorem mem_dictInsert_of_ne {m : List (Nat × Nat)} {k v : Nat} {p : Nat × Nat}
    (hp : p ∈ m) (hne : p.1 ≠ k) : p ∈ dictInsert m k v := by
  unfold dictInsert
  by_cases h : m.any (fun q => q.1 == k)
  · rw [if_pos h]
    refine List.mem_map.mpr ⟨p, hp, ?_⟩
    rw [if_neg (by simpa using hne)]
  · rw [if_neg h]
    exact List.mem_append_left _ hp

theorem mem_dictInsert {m : List (Nat × Nat)} {k v : Nat} {p : Nat × Nat}
    (hp : p ∈ dictInsert m k v) : p ∈ m ∨ p = (k, v) := by
  unfold dictInsert at hp
  by_cases h : m.any (fun q => q.1 == k)
  · rw [if_pos h] at hp
    rcases List.mem_map.mp hp with ⟨q, hq, hqe⟩
    by_cases hk : q.1 == k
    · right; rw [if_pos hk] at hqe; exact hqe.symm
    · left; rw [if_neg hk] at hqe; exact hqe ▸ hq
  · rw [if_neg h] at hp
    rcases List.mem_append.mp hp with h1 | h1
    · exact Or.inl h1
    · right; simpa using h1

theorem addFold_dbShape (size : Nat) :
    ∀ (ep : List (Nat × (Nat × Vec))) (m : List (Nat × Nat)) (db : List ChunkRec),
      dbShape ((ep.foldl (addStep size) (m, db)).2) = dbShape db
  | [], _, _ => rfl
  | e :: rest, m, db => by
    simp only [List.foldl_cons]
    rw [addFold_dbShape size rest _ _]
    exact dbShape_setVectorId ..

theorem mem_addFold (size : Nat) :
    ∀ (ep : List (Nat × (Nat × Vec))) (m : List (Nat × Nat)) (db : List ChunkRec)
      (p : Nat × Nat), p ∈ (ep.foldl (addStep size) (m, db)).1 →
      p ∈ m ∨ ∃ e ∈ ep, p.2 = e.2.1
  | [], _, _, _, hp => Or.inl hp
  | e :: rest, m, db, p, hp => by
    simp only [List.foldl_cons] at hp
    rcases mem_addFold size rest _ _ p hp with h1 | ⟨e1, he1, he2⟩
    · rcases mem_dictInsert h1 with h2 | h2
      · exact Or.inl h2
      · exact Or.inr ⟨e, List.mem_cons_self .., by rw [h2]⟩
    · exact Or.inr ⟨e1, List.mem_cons_of_mem _ he1, he2⟩

theorem addFold_preserves_mem (size : Nat) :
    ∀ (ep : List (Nat × (Nat × Vec))) (m : List (Nat × Nat)) (db : List ChunkRec)
      (p : Nat × Nat), p ∈ m → (∀ e ∈ ep, p.1 ≠ size + e.1) →
      p ∈ (ep.foldl (addStep size) (m, db)).1
  | [], _, _, _, hp, _ => hp
  | e :: rest, m, db, p, hp, hk => by
    simp only [List.foldl_cons]
    exact addFold_preserves_mem size rest _ _ p
      (mem_dictInsert_of_ne hp (hk e (List.mem_cons_self ..)))
      (fun e1 he1 => hk e1 (List.mem_cons_of_mem _ he1))

theorem addFold_mem_inserted (size : Nat) :
    ∀ (ep : List (Nat × (Nat × Vec))) (m : List (Nat × Nat)) (db : List ChunkRec)
      {e : Nat × (Nat × Vec)}, e ∈ ep →
      ep.Pairwise (fun a b => a.1 ≠ b.1) →
      (size + e.1, e.2.1) ∈ (ep.foldl (addStep size) (m, db)).1
  | [], _, _, _, he, _ => absurd he (List.not_mem_nil _)
  | e0 :: rest, m, db, e, he, hpw => by
    simp only [List.foldl_cons]
    rcases List.mem_cons.mp he with rfl | he1
    · exact addFold_preserves_mem size rest _ _ _
        (mem_dictInsert_self ..)
        (fun e1 he1 => by
          have hne := (List.pairwise_cons.mp hpw).1 e1 he1
          intro h
          exact hne (Nat.add_left_cancel h))
    · exact addFold_mem_inserted size rest _ _ he1 (List.pairwise_cons.mp hpw).2

theorem lookupMeta_mem {m : List (Nat × Nat)} {s cid : Nat}
    (h : lookupMeta m s = some cid) : (s, cid) ∈ m := by
  unfold lookupMeta at h
  cases hf : m.find? (fun p => p.1 == s) with
  | none => rw [hf] at h; exact Option.noConfusion h
  | some p =>
    rw [hf] at h
    simp only [Option.map_some'] at h
    have hm := List.mem_of_find?_eq_some hf
    have hp := List.find?_some hf
    have hps : p.1 = s := by simpa using hp
    have : p = (s, cid) := by
      obtain ⟨p1, p2⟩ := p
      simp only [Option.some.injEq] at h
      simp_all
    exact this ▸ hm

theorem mem_searchIndex {idx : UserIndex} {q : Vec} {k : Nat} {cid : Nat}
    (h : cid ∈ searchIndex idx q k) : ∃ s, (s, cid) ∈ idx.metadata := by
  unfold searchIndex at h
  split at h
  · simp at h
  · rcases List.mem_filterMap.mp h with ⟨s, _, hlk⟩
    exact ⟨s, lookupMeta_mem hlk⟩

theorem mem_searchOp {st : SysState} {u : Nat} {q : Vec} {k : Nat} {cid : Nat}
    (h : cid ∈ searchOp st u q k) :
    ∃ idx, st.vdb u = some idx ∧ ∃ s, (s, cid) ∈ idx.metadata := by
  unfold searchOp loadUserIndex at h
  cases hv : st.vdb u with
  | none =>
    rw [hv] at h
    simp only [Option.getD_none] at h
    rcases mem_searchIndex h with ⟨s, hs⟩
    simp [emptyIndex] at hs
  | some idx =>
    rw [hv] at h
    simp only [Option.getD_some] at h
    exact ⟨idx, rfl, mem_searchIndex h⟩

theorem snd_mem_of_mem_enumFrom {α : Type} :
    ∀ {l : List α} {n : Nat} {e : Nat × α}, e ∈ l.enumFrom n → e.2 ∈ l
  | [], _, _, he => absurd he (List.not_mem_nil _)
  | a :: l, n, e, he => by
    rcases List.mem_cons.mp he with rfl | he1
    · exact List.mem_cons_self ..
    · exact List.mem_cons_of_mem _ (snd_mem_of_mem_enumFrom he1)

theorem snd_mem_of_mem_enum {α : Type} {l : List α} {e : Nat × α}
    (he : e ∈ l.enum) : e.2 ∈ l :=
  snd_mem_of_mem_enumFrom (l := l) (n := 0) he

theorem enum_pairwise_ne {α : Type} (l : List α) :
    l.enum.Pairwise (fun a b => a.1 ≠ b.1) := by
  have h : (l.enum.map Prod.fst).Nodup := by
    rw [List.enum_map_fst]
    exact List.nodup_range _
  exact List.pairwise_map.mp h

theorem ownedOnly_of_mem {db0 db : List ChunkRec} {r : ChunkRec} {u : Nat}
    (hnd : (db0.map ChunkRec.id).Nodup)
    (hsh : dbShape db = dbShape db0)
    (hr : r ∈ db) (hu : r.userId = u) : ownedOnly db0 r.id u := by
  have hmem : (r.id, r.pdfId, r.userId) ∈ dbShape db0 := by
    rw [← hsh]
    exact List.mem_map.mpr ⟨r, hr, rfl⟩
  rcases List.mem_map.mp hmem with ⟨r0, hr0, he⟩
  simp only [Prod.mk.injEq] at he
  obtain ⟨h1, _, h3⟩ := he
  intro r1 hr1 hid
  have h01 : r1 = r0 := List.inj_on_of_nodup_map hnd hr1 hr0 (by rw [hid, h1])
  rw [h01, h3, hu]

theorem addEmbeddings_inv {db0 : List ChunkRec} {st : SysState} {u : Nat}
    {pairs : List (Nat × Vec)}
    (hsh : dbShape st.db = dbShape db0) (hinv : MetaOwned db0 st)
    (hpairs : ∀ pr ∈ pairs, ownedOnly db0 pr.1 u) :
    dbShape (addEmbeddings st u pairs).db = dbShape db0 ∧
      MetaOwned db0 (addEmbeddings st u pairs) := by
  constructor
  · show dbShape ((pairs.enum.foldl (addStep _) (_, st.db)).2) = _
    rw [addFold_dbShape]
    exact hsh
  · intro v idx hv p hp
    simp only [addEmbeddings] at hv
    by_cases hvu : v = u
    · rw [if_pos hvu] at hv
      rw [hvu]
      injection hv with hv
      subst hv
      rcases mem_addFold _ _ _ _ _ hp with h1 | ⟨e, he, he2⟩
      · cases hload : st.vdb u with
        | none =>
          simp only [loadUserIndex, hload, Option.getD_none, emptyIndex] at h1
          exact absurd h1 (List.not_mem_nil _)
        | some idx0 =>
          have hld : loadUserIndex st.vdb u = idx0 := by
            simp [loadUserIndex, hload]
          rw [hld] at h1
          exact hinv u idx0 hload p h1
      · rw [he2]
        exact hpairs e.2 (snd_mem_of_mem_enum he)
    · rw [if_neg hvu] at hv
      exact hinv v idx hv p hp

theorem deletePdfVectors_inv {db0 : List ChunkRec} {st : SysState}
    (embed : ChunkRec → Vec) (pdfId u : Nat)
    (hnd : (db0.map ChunkRec.id).Nodup)
    (hsh : dbShape st.db = dbShape db0) (hinv : MetaOwned db0 st) :
    dbShape (deletePdfVectors embed st pdfId u).db = dbShape db0 ∧
      MetaOwned db0 (deletePdfVectors embed st pdfId u) := by
  simp only [deletePdfVectors]
  split
  · exact ⟨hsh, hinv⟩
  · split
    · refine ⟨hsh, ?_⟩
      intro v idx hv p hp
      simp only at hv
      by_cases hvu : v = u
      · rw [if_pos hvu] at hv; exact Option.noConfusion hv
      · rw [if_neg hvu] at hv; exact hinv v idx hv p hp
    · refine ⟨hsh, ?_⟩
      intro v idx hv p hp
      simp only at hv
      by_cases hvu : v = u
      · rw [if_pos hvu] at hv
        rw [hvu]
        injection hv with hv
        subst hv
        rcases List.mem_map.mp hp with ⟨e, he, hpe⟩
        have h2 := snd_mem_of_mem_enum he
        have h3 := List.mem_filter.mp h2
        have huser : e.2.userId = u := by
          have hb := h3.2
          simp only [Bool.and_eq_true, beq_iff_eq] at hb
          exact hb.1
        have h4 := ownedOnly_of_mem hnd hsh h3.1 huser
        have hpsnd : p.2 = e.2.id := by rw [← hpe]
        rw [hpsnd]
        exact h4
      · rw [if_neg hvu] at hv
        exact hinv v idx hv p hp

theorem runOps_inv (embed : ChunkRec → Vec) (db0 : List ChunkRec)
    (hnd : (db0.map ChunkRec.id).Nodup) :
    ∀ (ops : List VOp) (st : SysState),
      dbShape st.db = dbShape db0 → MetaOwned db0 st →
      (∀ op ∈ ops, opOk db0 op) →
      dbShape (runOps embed st ops).db = dbShape db0 ∧
        MetaOwned db0 (runOps embed st ops)
  | [], _, hsh, hinv, _ => ⟨hsh, hinv⟩
  | op :: ops, st, hsh, hinv, hops => by
    have h1 : opOk db0 op := hops op (List.mem_cons_self ..)
    have hrest : ∀ o ∈ ops, opOk db0 o := fun o ho => hops o (List.mem_cons_of_mem _ ho)
    cases op with
    | add u pairs =>
      have h2 := addEmbeddings_inv hsh hinv h1
      exact runOps_inv embed db0 hnd ops _ h2.1 h2.2 hrest
    | del pdfId u =>
      have h2 := deletePdfVectors_inv embed pdfId u hnd hsh hinv
      exact runOps_inv embed db0 hnd ops _ h2.1 h2.2 hrest

/-- C1: per-user isolation of the vector index. For distinct users `A` and
`B`, after any sequence of `add_embeddings` and `delete_pdf_vectors`
operations starting from a fresh store, in which each add for a user only
passes chunk ids that no other user owns (which is how the ingestion
pipeline calls it), `search(A, q, k)` never returns a chunk id that
belongs to user `B` in the chunk table. -/
theorem user_isolation (db0 : List ChunkRec) (embed : ChunkRec → Vec)
    (ops : List VOp) (A B : Nat) (q : Vec) (k : Nat) (cid : Nat)
    (hnd : (db0.map ChunkRec.id).Nodup)
    (hops : ∀ op ∈ ops, opOk db0 op)
    (hAB : A ≠ B)
    (hmem : cid ∈ searchOp (runOps embed (initState db0) ops) A q k) :
    ¬ chunkBelongsTo (runOps embed (initState db0) ops).db cid B := by
  have hinv := runOps_inv embed db0 hnd ops (initState db0) rfl
    (fun u idx hv => Option.noConfusion hv) hops
  rcases mem_searchOp hmem with ⟨idx, hv, s, hsm⟩
  have howned : ownedOnly db0 cid A := hinv.2 A idx hv (s, cid) hsm
  rintro ⟨r, hr, hid, huser⟩
  have hmem2 : (r.id, r.pdfId, r.userId) ∈ dbShape db0 := by
    rw [← hinv.1]
    exact List.mem_map.mpr ⟨r, hr, rfl⟩
  rcases List.mem_map.mp hmem2 with ⟨r0, hr0, he⟩
  simp only [Prod.mk.injEq] at he
  obtain ⟨h1, _, h3⟩ := he
  have hA : r0.userId = A := howned r0 hr0 (by rw [h1, hid])
  rw [hA] at h3
  exact hAB (h3.trans huser)

theorem zipWith_sub_self (v : Vec) :
    List.zipWith (fun a b => (a - b) * (a - b)) v v = v.map (fun _ => (0 : Int)) := by
  induction v with
  | nil => rfl
  | cons a v ih => simp [ih]

theorem foldl_add_zeros : ∀ (l : List Int) (a : Int),
    (l.map (fun _ => (0 : Int))).foldl (· + ·) a = a
  | [], _ => rfl
  | _ :: l, a => by
    simp only [List.map_cons, List.foldl_cons, add_zero]
    exact foldl_add_zeros l a

theorem sqDist_self (v : Vec) : sqDist v v = 0 := by
  unfold sqDist
  rw [zipWith_sub_self]
  exact foldl_add_zeros v 0

theorem sqDist_nonneg (q w : Vec) : 0 ≤ sqDist q w := by
  unfold sqDist
  suffices h : ∀ (l1 l2 : List Int) (a : Int), 0 ≤ a →
      0 ≤ (List.zipWith (fun a b => (a - b) * (a - b)) l1 l2).foldl (· + ·) a by
    exact h q w 0 le_rfl
  intro l1
  induction l1 with
  | nil => intro l2 a ha; simpa using ha
  | cons x l1 ih =>
    intro l2 a ha
    cases l2 with
    | nil => simpa using ha
    | cons y l2 =>
      simp only [List.zipWith_cons_cons, List.foldl_cons]
      exact ih l2 _ (add_nonneg ha (mul_self_nonneg _))

theorem find?_map_keyReplace (k v : Nat) :
    ∀ (m : List (Nat × Nat)), m.any (fun p => p.1 == k) = true →
      (m.map (fun p => if p.1 == k then (k, v) else p)).find?
        (fun p => p.1 == k) = some (k, v)
  | [], h => by simp at h
  | p :: m, h => by
    by_cases hp : (p.1 == k) = true
    · simp only [List.map_cons, if_pos hp]
      exact List.find?_cons_of_pos _ (by simp)
    · simp only [List.map_cons, if_neg hp]
      rw [List.find?_cons_of_neg _ (by simpa using hp)]
      apply find?_map_keyReplace k v m
      simpa [hp] using h

theorem find?_append_of_none {k : Nat} :
    ∀ (m l : List (Nat × Nat)), m.any (fun p => p.1 == k) = false →
      (m ++ l).find? (fun p => p.1 == k) = l.find? (fun p => p.1 == k)
  | [], _, _ => rfl
  | p :: m, l, h => by
    have h2 : ((p.1 == k) || m.any (fun p => p.1 == k)) = false := by
      simpa using h
    rcases Bool.or_eq_false_iff.mp h2 with ⟨hp, hm⟩
    rw [List.cons_append, List.find?_cons_of_neg _ (by simp [hp])]
    exact find?_append_of_none m l hm

theorem lookupMeta_dictInsert_self (m : List (Nat × Nat)) (k v : Nat) :
    lookupMeta (dictInsert m k v) k = some v := by
  unfold dictInsert lookupMeta
  by_cases h : m.any (fun p => p.1 == k)
  · rw [if_pos h, find?_map_keyReplace k v m h]
    rfl
  · rw [if_neg h, find?_append_of_none m _ (Bool.eq_false_iff.mpr h)]
    simp [List.find?]

theorem head_insertionSort_of_min {l : List (Int × Nat)} {x : Int × Nat}
    (hx : x ∈ l) (hmin : ∀ y ∈ l, y = x ∨ ¬ slotLE y x) :
    ∃ t, List.insertionSort slotLE l = x :: t := by
  have hperm := List.perm_insertionSort slotLE l
  have hsorted := List.sorted_insertionSort slotLE l
  cases hs : List.insertionSort slotLE l with
  | nil =>
    rw [hs] at hperm
    exact absurd (hperm.symm.mem_iff.mp hx) (List.not_mem_nil _)
  | cons h t =>
    refine ⟨t, ?_⟩
    have hh : h ∈ l := hperm.mem_iff.mp (hs ▸ List.mem_cons_self ..)
    by_cases hhx : h = x
    · rw [hhx]
    · have hxs : x ∈ h :: t := hs ▸ hperm.mem_iff.mpr hx
      have hxt : x ∈ t := by
        rcases List.mem_cons.mp hxs with h1 | h1
        · exact absurd h1.symm hhx
        · exact h1
      have hsle : slotLE h x := by
        rw [hs] at hsorted
        exact (List.pairwise_cons.mp hsorted).1 x hxt
      rcases hmin h hh with h1 | h1
      · exact absurd h1 hhx
      · exact absurd hsle h1

theorem addEmbeddings_single_vdb (st : SysState) (u c : Nat) (v : Vec) :
    (addEmbeddings st u [(c, v)]).vdb u =
      some ⟨(loadUserIndex st.vdb u).vecs ++ [v],
        dictInsert (loadUserIndex st.vdb u).metadata
          (loadUserIndex st.vdb u).vecs.length c⟩ := by
  simp [addEmbeddings, addStep, List.enum]

/-- C2 (amended): index round-trip. If the user's index holds no vector at
squared-L2 distance 0 from `v` (in particular, starting from an empty or
absent index), then `add_embeddings(u, {c: v})` followed by
`search(u, v, 1)` returns exactly `[c]`. Without that proviso the claim
fails: an equal vector stored earlier wins the distance tie by lower slot
number (see the counterexample). -/
theorem add_search_roundtrip (st : SysState) (u c : Nat) (v : Vec)
    (hfresh : ∀ w ∈ (loadUserIndex st.vdb u).vecs, sqDist v w ≠ 0) :
    searchOp (addEmbeddings st u [(c, v)]) u v 1 = [c] := by
  set idx := loadUserIndex st.vdb u with hidx
  set n := idx.vecs.length with hn
  have hload : loadUserIndex (addEmbeddings st u [(c, v)]).vdb u =
      ⟨idx.vecs ++ [v], dictInsert idx.metadata n c⟩ := by
    unfold loadUserIndex
    rw [addEmbeddings_single_vdb]
    rfl
  unfold searchOp
  rw [hload]
  unfold searchIndex
  have hlen : (idx.vecs ++ [v]).length = n + 1 := by simp [hn]
  rw [if_neg (by rw [hlen]; exact Nat.succ_ne_zero n)]
  dsimp only
  have hx : ((0 : Int), n) ∈ (idx.vecs ++ [v]).enum.map
      (fun p => (sqDist v p.2, p.1)) := by
    refine List.mem_map.mpr ⟨(n, v), ?_, by rw [sqDist_self]⟩
    rw [List.mem_enum_iff_getElem?]
    exact hn ▸ List.getElem?_concat_length idx.vecs v
  have hmin : ∀ y ∈ (idx.vecs ++ [v]).enum.map (fun p => (sqDist v p.2, p.1)),
      y = ((0 : Int), n) ∨ ¬ slotLE y ((0 : Int), n) := by
    intro y hy
    rcases List.mem_map.mp hy with ⟨⟨i, w⟩, he, hye⟩
    have hget := List.mem_enum_iff_getElem?.mp he
    by_cases hi : i < idx.vecs.length
    · right
      rw [List.getElem?_append_left hi] at hget
      have hw : w ∈ idx.vecs := by
        obtain ⟨_, rfl⟩ := List.getElem?_eq_some.mp hget
        exact List.getElem_mem ..
      have hd0 : sqDist v w ≠ 0 := hfresh w hw
      have hdpos : 0 < sqDist v w := lt_of_le_of_ne (sqDist_nonneg v w) (Ne.symm hd0)
      rw [← hye]
      intro hcon
      rcases hcon with h1 | ⟨h1, _⟩
      · exact absurd h1 (not_lt.mpr (le_of_lt hdpos))
      · exact hd0 h1
    · left
      have hi2 : i = n := by
        have hlt : i < (idx.vecs ++ [v]).length := by
          by_contra hcon
          rw [List.getElem?_eq_none (le_of_not_lt hcon)] at hget
          exact Option.noConfusion hget
        rw [hlen] at hlt
        omega
      rw [hi2] at hget
      have hcv : (idx.vecs ++ [v])[n]? = some v := hn ▸ List.getElem?_concat_length idx.vecs v
      rw [hcv] at hget
      injection hget with hget
      rw [← hye, hget, hi2, sqDist_self]
  rcases head_insertionSort_of_min hx hmin with ⟨t, ht⟩
  rw [ht]
  have hmin1 : min 1 ((idx.vecs ++ [v]).length) = 1 := by
    rw [hlen]; omega
  rw [hmin1]
  simp only [List.take_succ_cons, List.take_zero, List.map_cons, List.map_nil]
  rw [List.filterMap_cons]
  rw [lookupMeta_dictInsert_self]
  rfl

/-- Closed witness for `add_search_roundtrip` on an empty store. -/
theorem add_search_roundtrip_witness :
    (∀ w ∈ (loadUserIndex (initState []).vdb 1).vecs, sqDist [1, 2] w ≠ 0) ∧
      searchOp (addEmbeddings (initState []) 1 [(7, [1, 2])]) 1 [1, 2] 1 = [7] :=
  ⟨by decide, add_search_roundtrip (initState []) 1 7 [1, 2] (by decide)⟩

/-- C2 counterexample: the round-trip claim fails without the freshness
proviso. With chunk 5 already stored under the exact vector `[0, 0]`,
adding chunk 6 with the same vector and searching it with `k = 1` returns
chunk 5 (the earlier slot wins the tie), not the chunk just added. -/
theorem add_search_roundtrip_duplicate_cex :
    searchOp (addEmbeddings (addEmbeddings (initState []) 1 [(5, [0, 0])]) 1
      [(6, [0, 0])]) 1 [0, 0] 1 = [5] := by
  decide

/-- Closed witness for `user_isolation` at a concrete two-user store. -/
theorem user_isolation_witness :
    ((([⟨1, 1, 1, none⟩, ⟨2, 2, 2, none⟩] : List ChunkRec).map
        ChunkRec.id).Nodup ∧
      (∀ op ∈ ([.add 1 [(1, [0])], .add 2 [(2, [5])]] : List VOp),
        opOk [⟨1, 1, 1, none⟩, ⟨2, 2, 2, none⟩] op) ∧
      (1 : Nat) ≠ 2 ∧
      1 ∈ searchOp (runOps (fun _ => [0])
        (initState [⟨1, 1, 1, none⟩, ⟨2, 2, 2, none⟩])
        [.add 1 [(1, [0])], .add 2 [(2, [5])]]) 1 [0] 5) ∧
    ¬ chunkBelongsTo (runOps (fun _ => [0])
        (initState [⟨1, 1, 1, none⟩, ⟨2, 2, 2, none⟩])
        [.add 1 [(1, [0])], .add 2 [(2, [5])]]).db 1 2 :=
  ⟨⟨by decide, by decide, by decide, by decide⟩,
    user_isolation _ _ _ 1 2 [0] 5 1 (by decide) (by decide) (by decide) (by decide)⟩

theorem addFold_eq (size : Nat) :
    ∀ (pairs : List (Nat × Vec)) (n : Nat) (m : List (Nat × Nat))
      (db : List ChunkRec), (∀ p ∈ m, p.1 < size + n) →
      ((List.enumFrom n pairs).foldl (addStep size) (m, db)).1 =
        m ++ (List.enumFrom n pairs).map (fun p => (size + p.1, p.2.1))
  | [], n, m, db, _ => by simp
  | a :: pairs, n, m, db, hm => by
    have hins : dictInsert m (size + n) a.1 = m ++ [(size + n, a.1)] := by
      unfold dictInsert
      rw [if_neg]
      intro hcon
      rcases List.any_eq_true.mp hcon with ⟨p, hp, hpk⟩
      have hlt := hm p hp
      have hpe : p.1 = size + n := by simpa using hpk
      rw [hpe] at hlt
      exact lt_irrefl _ hlt
    show ((List.enumFrom (n + 1) pairs).foldl (addStep size)
      (dictInsert m (size + n) a.1, setVectorId db a.1 (size + n))).1 = _
    rw [hins, addFold_eq size pairs (n + 1) _ _ ?_]
    · simp [List.append_assoc]
    · intro p hp
      rcases List.mem_append.mp hp with h1 | h1
      · exact lt_trans (hm p h1) (by omega)
      · rcases List.mem_singleton.mp h1 with rfl
        omega

theorem addFold_enum_eq (size : Nat) (pairs : List (Nat × Vec))
    (m : List (Nat × Nat)) (db : List ChunkRec)
    (hm : ∀ p ∈ m, p.1 < size) :
    (pairs.enum.foldl (addStep size) (m, db)).1 =
      m ++ pairs.enum.map (fun p => (size + p.1, p.2.1)) := by
  have h := addFold_eq size pairs 0 m db (by simpa using hm)
  simpa [List.enum] using h

theorem addEmbeddings_fresh (st : SysState) (u : Nat)
    (pairs : List (Nat × Vec)) (hnone : st.vdb u = none) :
    (addEmbeddings st u pairs).vdb u =
      some ⟨pairs.map Prod.snd, pairs.enum.map (fun p => (p.1, p.2.1))⟩ := by
  have hload : loadUserIndex st.vdb u = emptyIndex := by
    simp [loadUserIndex, hnone]
  simp only [addEmbeddings, hload, emptyIndex, List.length_nil, List.nil_append]
  have h0 : ∀ p ∈ ([] : List (Nat × Nat)), p.1 < 0 :=
    fun p hp => absurd hp (List.not_mem_nil _)
  rw [addFold_enum_eq 0 pairs [] st.db h0]
  simp only [List.nil_append, eq_self_iff_true, if_true, Option.some.injEq,
    UserIndex.mk.injEq, true_and]
  apply List.map_congr_left
  intro p _
  simp

/-- C3: delete-by-rebuild postcondition. For a document `d` of user `u`
(all of `d`'s chunk rows carry user `u`, ids unique), after
`delete_pdf_vectors(d, u)`: (1) an immediately following
`search(u, q, k)` never returns a chunk id of a row of document `d`; and
(2) when `d` had chunks and no chunks of `u` remain, the user's persisted
index/metadata pair is deleted entirely and a later `add_embeddings`
lazily creates a fresh index holding exactly the added vectors with slots
renumbered from 0. -/
theorem delete_rebuild_postcondition (embed : ChunkRec → Vec) (st : SysState)
    (d u : Nat)
    (hnd : (st.db.map ChunkRec.id).Nodup)
    (hdoc : ∀ r ∈ st.db, r.pdfId = d → r.userId = u) :
    (∀ q k cid, cid ∈ searchOp (deletePdfVectors embed st d u) u q k →
      ¬ ∃ r ∈ st.db, r.id = cid ∧ r.pdfId = d) ∧
    ((st.db.filter (fun r => r.pdfId == d && r.userId == u)).isEmpty = false →
      (st.db.filter (fun r => r.userId == u && !(r.pdfId == d))).isEmpty = true →
      (deletePdfVectors embed st d u).vdb u = none ∧
      ∀ pairs : List (Nat × Vec),
        (addEmbeddings (deletePdfVectors embed st d u) u pairs).vdb u =
          some ⟨pairs.map Prod.snd, pairs.enum.map (fun p => (p.1, p.2.1))⟩) := by
  constructor
  · intro q k cid hmem
    by_cases h1 : (st.db.filter (fun r => r.pdfId == d && r.userId == u)).isEmpty = true
    · have hdel : deletePdfVectors embed st d u = st := by
        simp only [deletePdfVectors]
        rw [if_pos h1]
      rintro ⟨r, hr, _, hpdf⟩
      have huser := hdoc r hr hpdf
      have hnil := List.isEmpty_iff.mp h1
      have := List.filter_eq_nil_iff.mp hnil r hr
      simp only [Bool.and_eq_true, beq_iff_eq, not_and] at this
      exact this hpdf huser
    · by_cases h2 : (st.db.filter
          (fun r => r.userId == u && !(r.pdfId == d))).isEmpty = true
      · have hdel : (deletePdfVectors embed st d u).vdb u = none := by
          simp only [deletePdfVectors]
          rw [if_neg h1, if_pos h2]
          simp
        rcases mem_searchOp hmem with ⟨idx, hv, _, _⟩
        rw [hdel] at hv
        exact absurd hv (Option.noConfusion)
      · have hdel : (deletePdfVectors embed st d u).vdb u =
            some ⟨(st.db.filter (fun r => r.userId == u && !(r.pdfId == d))).map embed,
              (st.db.filter (fun r => r.userId == u && !(r.pdfId == d))).enum.map
                (fun p => (p.1, p.2.id))⟩ := by
          simp only [deletePdfVectors]
          rw [if_neg h1, if_neg h2]
          simp
        rcases mem_searchOp hmem with ⟨idx, hv, s, hsm⟩
        rw [hdel] at hv
        injection hv with hv
        subst hv
        rcases List.mem_map.mp hsm with ⟨e, he, hpe⟩
        have h3 := List.mem_filter.mp (snd_mem_of_mem_enum he)
        have hbool := h3.2
        simp only [Bool.and_eq_true, beq_iff_eq, Bool.not_eq_eq_eq_not,
          Bool.not_true, beq_eq_false_iff_ne] at hbool
        have hcid : e.2.id = cid := by
          have := congrArg Prod.snd hpe
          simpa using this
        rintro ⟨r, hr, hid, hpdf⟩
        have heq : r = e.2 := List.inj_on_of_nodup_map hnd hr h3.1 (by rw [hid, hcid])
        rw [heq] at hpdf
        exact hbool.2 hpdf
  · intro h1 h2
    have hdel : (deletePdfVectors embed st d u).vdb u = none := by
      simp only [deletePdfVectors]
      rw [if_neg (by rw [h1]; exact Bool.false_ne_true), if_pos h2]
      simp
    exact ⟨hdel, fun pairs => addEmbeddings_fresh _ u pairs hdel⟩

/-- Closed witness for `delete_rebuild_postcondition`: a store with one
document (id 10) of user 1 holding a single chunk. -/
theorem delete_rebuild_postcondition_witness :
    ((([⟨1, 10, 1, none⟩] : List ChunkRec).map ChunkRec.id).Nodup ∧
      (∀ r ∈ ([⟨1, 10, 1, none⟩] : List ChunkRec), r.pdfId = 10 → r.userId = 1)) ∧
    ((∀ q k cid, cid ∈ searchOp (deletePdfVectors (fun _ => [0])
        (addEmbeddings (initState [⟨1, 10, 1, none⟩]) 1 [(1, [2])]) 10 1) 1 q k →
      ¬ ∃ r ∈ (addEmbeddings (initState [⟨1, 10, 1, none⟩]) 1 [(1, [2])]).db,
          r.id = cid ∧ r.pdfId = 10) ∧
    (((addEmbeddings (initState [⟨1, 10, 1, none⟩]) 1 [(1, [2])]).db.filter
        (fun r => r.pdfId == 10 && r.userId == 1)).isEmpty = false →
      ((addEmbeddings (initState [⟨1, 10, 1, none⟩]) 1 [(1, [2])]).db.filter
        (fun r => r.userId == 1 && !(r.pdfId == 10))).isEmpty = true →
      (deletePdfVectors (fun _ => [0])
        (addEmbeddings (initState [⟨1, 10, 1, none⟩]) 1 [(1, [2])]) 10 1).vdb 1 = none ∧
      ∀ pairs : List (Nat × Vec),
        (addEmbeddings (deletePdfVectors (fun _ => [0])
          (addEmbeddings (initState [⟨1, 10, 1, none⟩]) 1 [(1, [2])]) 10 1) 1 pairs).vdb 1 =
          some ⟨pairs.map Prod.snd, pairs.enum.map (fun p => (p.1, p.2.1))⟩)) :=
  ⟨⟨by decide, by decide⟩,
    delete_rebuild_postcondition (fun _ => [0])
      (addEmbeddings (initState [⟨1, 10, 1, none⟩]) 1 [(1, [2])]) 10 1
      (by decide) (by decide)⟩

/-- C9 counterexample: a persisted pair whose index holds two vectors but
whose metadata dict maps only slot 0 is loaded without any error, and
`search` serves results from the inconsistent pair (silently dropping the
unmapped slot) instead of failing. -/
theorem load_corruption_cex :
    loadUserIndexE (fun v => if v = 1 then some ⟨[[0], [1]], [(0, 7)]⟩ else none) 1 =
      Except.ok ⟨[[0], [1]], [(0, 7)]⟩ ∧
    searchOp ⟨[], fun v => if v = 1 then some ⟨[[0], [1]], [(0, 7)]⟩ else none⟩
      1 [0] 2 = [7] := by
  constructor
  · rfl
  · decide

/-- C9 (amended): `_load_user_index` performs no mapping/size consistency
check and always returns normally; on a mismatched pair, `search` serves
from the inconsistent pair, returning only chunk ids of slots present in
the metadata dict and silently skipping the rest. -/
theorem load_never_fails_search_serves (st : SysState) (u : Nat)
    (q : Vec) (k : Nat) (cid : Nat)
    (hmem : cid ∈ searchOp st u q k) :
    loadUserIndexE st.vdb u = Except.ok (loadUserIndex st.vdb u) ∧
      ∃ s, (s, cid) ∈ (loadUserIndex st.vdb u).metadata :=
  ⟨rfl, mem_searchIndex hmem⟩

/-- Closed witness for `load_never_fails_search_serves` at the mismatched
pair of the counterexample. -/
theorem load_never_fails_search_serves_witness :
    7 ∈ searchOp ⟨[], fun v => if v = 1 then some ⟨[[0], [1]], [(0, 7)]⟩ else none⟩
        1 [0] 2 ∧
    (loadUserIndexE (SysState.vdb ⟨[], fun v => if v = 1 then
        some ⟨[[0], [1]], [(0, 7)]⟩ else none⟩) 1 =
      Except.ok (loadUserIndex (SysState.vdb ⟨[], fun v => if v = 1 then
        some ⟨[[0], [1]], [(0, 7)]⟩ else none⟩) 1) ∧
      ∃ s, (s, 7) ∈ (loadUserIndex (SysState.vdb ⟨[], fun v => if v = 1 then
        some ⟨[[0], [1]], [(0, 7)]⟩ else none⟩) 1).metadata) :=
  ⟨by decide,
    load_never_fails_search_serves
      ⟨[], fun v => if v = 1 then some ⟨[[0], [1]], [(0, 7)]⟩ else none⟩
      1 [0] 2 7 (by decide)⟩

/-- C10: adding an embedding whose chunk id has no stored chunk row still
appends the vector to the user's index at slot `current_size + i` and
records the slot-to-chunk metadata entry, completing without error; only
the `vector_id` back-reference update is skipped (the chunk table keeps
its id/document/user projection, and in particular still has no row for
that id), so the persisted index can hold vectors whose chunk ids do not
exist. -/
theorem add_missing_chunk_id (st : SysState) (u : Nat)
    (pairs : List (Nat × Vec)) (i : Nat) (hi : i < pairs.length)
    (hno : ∀ r ∈ st.db, r.id ≠ (pairs.get ⟨i, hi⟩).1) :
    ∃ idx, (addEmbeddings st u pairs).vdb u = some idx ∧
      idx.vecs = (loadUserIndex st.vdb u).vecs ++ pairs.map Prod.snd ∧
      ((loadUserIndex st.vdb u).vecs.length + i, (pairs.get ⟨i, hi⟩).1) ∈
        idx.metadata ∧
      dbShape (addEmbeddings st u pairs).db = dbShape st.db ∧
      ∀ r ∈ (addEmbeddings st u pairs).db, r.id ≠ (pairs.get ⟨i, hi⟩).1 := by
  have hdb : (addEmbeddings st u pairs).db =
      (pairs.enum.foldl (addStep (loadUserIndex st.vdb u).vecs.length)
        ((loadUserIndex st.vdb u).metadata, st.db)).2 := rfl
  have hsh : dbShape (addEmbeddings st u pairs).db = dbShape st.db := by
    rw [hdb]
    exact addFold_dbShape ..
  refine ⟨⟨(loadUserIndex st.vdb u).vecs ++ pairs.map Prod.snd,
    (pairs.enum.foldl (addStep (loadUserIndex st.vdb u).vecs.length)
      ((loadUserIndex st.vdb u).metadata, st.db)).1⟩, ?_, rfl, ?_, hsh, ?_⟩
  · simp [addEmbeddings]
  · have he : ((i, pairs.get ⟨i, hi⟩) : Nat × (Nat × Vec)) ∈ pairs.enum := by
      rw [List.mem_enum_iff_getElem?]
      show pairs[i]? = some (pairs.get ⟨i, hi⟩)
      rw [List.getElem?_eq_getElem hi, List.get_eq_getElem]
    exact addFold_mem_inserted _ _ _ _ he (enum_pairwise_ne pairs)
  · intro r hr
    have hmem : (r.id, r.pdfId, r.userId) ∈ dbShape st.db := by
      rw [← hsh]
      exact List.mem_map.mpr ⟨r, hr, rfl⟩
    rcases List.mem_map.mp hmem with ⟨r0, hr0, he⟩
    simp only [Prod.mk.injEq] at he
    rw [← he.1]
    exact hno r0 hr0

/-- Closed witness for `add_missing_chunk_id` on an empty chunk table. -/
theorem add_missing_chunk_id_witness :
    (0 < ([(9, [1])] : List (Nat × Vec)).length ∧
      ∀ r ∈ (initState []).db, r.id ≠ 9) ∧
    ∃ idx, (addEmbeddings (initState []) 1 [(9, [1])]).vdb 1 = some idx ∧
      idx.vecs = (loadUserIndex (initState []).vdb 1).vecs ++
        ([(9, [1])] : List (Nat × Vec)).map Prod.snd ∧
      ((loadUserIndex (initState []).vdb 1).vecs.length + 0, 9) ∈ idx.metadata ∧
      dbShape (addEmbeddings (initState []) 1 [(9, [1])]).db =
        dbShape (initState []).db ∧
      ∀ r ∈ (addEmbeddings (initState []) 1 [(9, [1])]).db, r.id ≠ 9 :=
  ⟨⟨by decide, by decide⟩,
    add_missing_chunk_id (initState []) 1 [(9, [1])] 0 (by decide) (by decide)⟩

theorem chunkLoop_stuck : ∀ (fuel cidx : Nat) (acc : List ChunkDraft),
    chunkLoop badText 10 10 badRanges fuel 20 cidx acc = none
  | 0, _, _ => rfl
  | fuel + 1, cidx, acc => by
    have hstep : chunkLoop badText 10 10 badRanges (fuel + 1) 20 cidx acc =
        chunkLoop badText 10 10 badRanges fuel 20 (cidx + 1)
          (acc ++ [⟨List.replicate 9 'a', cidx, 1, 20, 30, 2⟩]) := rfl
    rw [hstep]
    exact chunkLoop_stuck fuel (cidx + 1) _

/-- C4 is refuted by the code: on a single 29-character page with
`chunk_size = 10, chunk_overlap = 10`, the sliding-window loop of
`create_chunks` reaches `start = 20` and then recomputes
`end = start + 10 = 30 = len(full_text)` and `start = end - overlap = 20`
forever: the new start is neither `<= 0` nor `>= len(full_text)`, so the
stopping test never fires, the same final chunk is re-emitted each
iteration, and no amount of fuel makes the loop return. -/
theorem createChunks_nonterminating :
    ∀ fuel, createChunks fuel 10 10 badPages = none := by
  intro fuel
  cases fuel with
  | zero => rfl
  | succ fuel =>
    have hstep : createChunks (fuel + 1) 10 10 badPages =
        chunkLoop badText 10 10 badRanges fuel 20 1
          [⟨List.replicate 29 'a', 0, 1, 0, 30, 7⟩] := rfl
    rw [hstep]
    exact chunkLoop_stuck fuel 1 _

/-- C5: zero-chunk ingestion. Whenever the extracted pages chunk to the
empty list, the task run ends with the document `failed`, a populated
no-extractable-text error payload, and the embedding gateway never
called. (The status-write trace also shows the transient `completed`
write from `process_and_save_chunks`, see C6.) -/
theorem zero_chunk_ingestion (fuel : Nat) (pages : List (Nat × List Char))
    (embedOutcome : Except String (List (Nat × Vec)))
    (hzero : createChunks fuel 800 100 pages = some []) :
    processPdfAsync fuel pages embedOutcome =
      some ⟨⟨.failed, some pages.length, 0, some errNoText⟩,
        [.processing, .completed, .failed], false⟩ := by
  unfold processPdfAsync processAndSaveChunks
  rw [hzero]
  rfl

/-- Closed witness for `zero_chunk_ingestion`: a document whose single
page is empty. -/
theorem zero_chunk_ingestion_witness :
    createChunks 1 800 100 [(1, [])] = some [] ∧
    processPdfAsync 1 [(1, [])] (Except.ok []) =
      some ⟨⟨.failed, some 1, 0, some errNoText⟩,
        [.processing, .completed, .failed], false⟩ :=
  ⟨by decide, zero_chunk_ingestion 1 [(1, [])] (Except.ok []) (by decide)⟩

/-- C6 counterexample: `completed` is not absorbing, even within a single
run. Ingesting a document with one empty page makes
`process_and_save_chunks` write `completed` (it succeeded with zero
chunks) and the task then overwrites the status with `failed`, so the
status-write trace `processing, completed, failed` violates the claimed
absorption of `completed`. -/
theorem completed_not_absorbing_cex :
    processPdfAsync 1 [(1, [])] (Except.ok []) =
      some ⟨⟨.failed, some 1, 0, some errNoText⟩,
        [.processing, .completed, .failed], false⟩ ∧
    ¬ absorbing .completed [.processing, .completed, .failed] := by
  constructor
  · decide
  · decide

/-- C6 (amended): only `failed` is absorbing in the status-write trace of
an ingestion run; `completed` is written by the chunk-persist step before
the zero-chunk check and the embedding step, and is overwritten with
`failed` when either goes wrong. -/
theorem failed_absorbing (fuel : Nat) (pages : List (Nat × List Char))
    (embedOutcome : Except String (List (Nat × Vec))) (r : TaskRun)
    (h : processPdfAsync fuel pages embedOutcome = some r) :
    absorbing .failed r.statusTrace := by
  unfold processPdfAsync processAndSaveChunks at h
  cases hc : createChunks fuel 800 100 pages with
  | none =>
    rw [hc] at h
    exact Option.noConfusion h
  | some chunkData =>
    rw [hc] at h
    dsimp only at h
    split at h
    · injection h with h
      rw [← h]
      exact (by decide :
        absorbing .failed [.processing, .completed, .failed])
    · cases embedOutcome with
      | error e =>
        injection h with h
        rw [← h]
        exact (by decide :
          absorbing .failed [.processing, .completed, .failed])
      | ok v =>
        injection h with h
        rw [← h]
        exact (by decide :
          absorbing .failed [.processing, .completed, .completed])

/-- Closed witness for `failed_absorbing` on the zero-chunk run. -/
theorem failed_absorbing_witness :
    processPdfAsync 1 [(1, [])] (Except.ok []) =
      some ⟨⟨.failed, some 1, 0, some errNoText⟩,
        [.processing, .completed, .failed], false⟩ ∧
    absorbing .failed
      (TaskRun.statusTrace ⟨⟨.failed, some 1, 0, some errNoText⟩,
        [.processing, .completed, .failed], false⟩) :=
  ⟨by decide,
    failed_absorbing 1 [(1, [])] (Except.ok [])
      ⟨⟨.failed, some 1, 0, some errNoText⟩,
        [.processing, .completed, .failed], false⟩ (by decide)⟩

/-- C7: empty-retrieval short circuit. Whenever the candidate sequence is
empty after search and hydration filtering, `ask_question` returns one of
its two fixed no-relevant-information answers with empty sources and
empty chunk ids, and the generation collaborator is never invoked. -/
theorem empty_retrieval_short_circuit (vdb : Nat → Option UserIndex)
    (chunks : List RChunk) (userId : Nat) (qEmb : Vec)
    (pdfIds : Option (List Nat)) (topK : Nat)
    (genOutcome : Except String String)
    (hempty : hydratedOrdered chunks userId pdfIds
      (ragSearchIds vdb userId qEmb topK) = []) :
    askQuestion vdb chunks userId qEmb pdfIds topK genOutcome =
        ⟨noInfoMsg1, [], [], false⟩ ∨
      askQuestion vdb chunks userId qEmb pdfIds topK genOutcome =
        ⟨noInfoMsg2, [], [], false⟩ := by
  simp only [askQuestion]
  by_cases hids : (ragSearchIds vdb userId qEmb topK).isEmpty = true
  · left
    rw [if_pos hids]
  · right
    rw [if_neg hids, if_pos (by rw [hempty]; rfl)]

/-- Closed witness for `empty_retrieval_short_circuit`: a user with no
index and no chunks. -/
theorem empty_retrieval_short_circuit_witness :
    hydratedOrdered [] 1 none (ragSearchIds (fun _ => none) 1 [0] 5) = [] ∧
    (askQuestion (fun _ => none) [] 1 [0] none 5 (Except.ok "x") =
        ⟨noInfoMsg1, [], [], false⟩ ∨
      askQuestion (fun _ => none) [] 1 [0] none 5 (Except.ok "x") =
        ⟨noInfoMsg2, [], [], false⟩) :=
  ⟨by decide,
    empty_retrieval_short_circuit (fun _ => none) [] 1 [0] none 5
      (Except.ok "x") (by decide)⟩

/-- C8 counterexample: neither auxiliary path propagates a generation
failure as a hard error. `generate_summary` catches the collaborator's
exception and returns an error-describing string; `generate_mindmap`
returns its error dict (its generation call always raises `TypeError`
because of the misspelled `ontents` keyword, collaborator outcome
regardless). -/
theorem summary_mindmap_absorb_cex :
    generateSummary [⟨1, 1, 1, 0, 1, "t", "f"⟩] 1 1 (Except.error "boom") =
      Except.ok (sumErrMsg "boom") ∧
    generateMindmap [⟨1, 1, 1, 0, 1, "t", "f"⟩] 1 1 (Except.error "boom") =
      Except.ok (.errorText
        ("Erreur lors de la generation de la carte mentale: " ++
          mindmapTypeError)) := by
  constructor
  · rfl
  · rfl

/-- C8 (amended): a generation-collaborator failure is absorbed on every
path. `ask_question` returns an error-describing answer with empty
sources (when candidates existed, the collaborator was invoked);
`generate_summary` and `generate_mindmap` also return normally — an
error-describing string, resp. the error dict — and never raise. -/
theorem generation_failure_policy (vdb : Nat → Option UserIndex)
    (chunks : List RChunk) (userId : Nat) (qEmb : Vec)
    (pdfIds : Option (List Nat)) (topK : Nat) (pdfId : Nat) (e : String)
    (hnonempty : hydratedOrdered chunks userId pdfIds
      (ragSearchIds vdb userId qEmb topK) ≠ []) :
    askQuestion vdb chunks userId qEmb pdfIds topK (Except.error e) =
      ⟨genErrMsg e, [], [], true⟩ ∧
    (∃ s, generateSummary chunks userId pdfId (Except.error e) = Except.ok s) ∧
    (∃ m, generateMindmap chunks userId pdfId (Except.error e) = Except.ok m) := by
  refine ⟨?_, ?_, ?_⟩
  · have hids : ¬ (ragSearchIds vdb userId qEmb topK).isEmpty = true := by
      intro hcon
      apply hnonempty
      rw [List.isEmpty_iff.mp hcon]
      rfl
    have hord : ¬ (hydratedOrdered chunks userId pdfIds
        (ragSearchIds vdb userId qEmb topK)).isEmpty = true := by
      intro hcon
      exact hnonempty (List.isEmpty_iff.mp hcon)
    simp only [askQuestion]
    rw [if_neg hids, if_neg hord]
  · simp only [generateSummary]
    split
    · exact ⟨noSummaryMsg, rfl⟩
    · exact ⟨sumErrMsg e, rfl⟩
  · simp only [generateMindmap]
    split
    · exact ⟨.errorText "Aucun contenu trouve", rfl⟩
    · exact ⟨.errorText ("Erreur lors de la generation de la carte mentale: " ++
        mindmapTypeError), rfl⟩

/-- Closed witness for `generation_failure_policy`: one indexed chunk,
failing collaborator. -/
theorem generation_failure_policy_witness :
    hydratedOrdered [⟨1, 1, 1, 0, 1, "t", "f"⟩] 1 none
      (ragSearchIds (fun v => if v = 1 then some ⟨[[0]], [(0, 1)]⟩ else none)
        1 [0] 5) ≠ [] ∧
    (askQuestion (fun v => if v = 1 then some ⟨[[0]], [(0, 1)]⟩ else none)
        [⟨1, 1, 1, 0, 1, "t", "f"⟩] 1 [0] none 5 (Except.error "boom") =
      ⟨genErrMsg "boom", [], [], true⟩ ∧
    (∃ s, generateSummary [⟨1, 1, 1, 0, 1, "t", "f"⟩] 1 1
      (Except.error "boom") = Except.ok s) ∧
    (∃ m, generateMindmap [⟨1, 1, 1, 0, 1, "t", "f"⟩] 1 1
      (Except.error "boom") = Except.ok m)) :=
  ⟨by decide,
    generation_failure_policy
      (fun v => if v = 1 then some ⟨[[0]], [(0, 1)]⟩ else none)
      [⟨1, 1, 1, 0, 1, "t", "f"⟩] 1 [0] none 5 1 "boom" (by decide)⟩

end PFMBD

